import Mathlib

/-!
# Yeast AutoOligo CRISPR Designer — verification of the core design algorithms

A shallow embedding of `src/services/crispr.ts` and `src/services/utils.ts`.
Nucleotide and protein sequences are `List Char` (one JS string character per
entry); JS `substring`, array indexing and in-place updates become `slice`,
`List.get?` and `List.set`.  All functions are executable Lean definitions
mirroring the TypeScript source line by line.
-/

namespace Crispr

/-- Strand of a Cas9 match (`'forward' | 'reverse'` in the source). -/
inductive Strand where
  | forward : Strand
  | reverse : Strand
deriving DecidableEq, Repr

/-- Disruption strategy tag of an accepted design. -/
inductive Strategy where
  | PAM_DISRUPTED_BY_TARGET : Strategy
  | PAM_SILENT : Strategy
  | SEED_SILENT : Strategy
deriving DecidableEq, Repr

/-- A candidate Cas9 site: absolute offset of the match start, the raw 23-nt
matched text, and the strand (`Cas9Site` in `src/types`). -/
structure Cas9Site where
  position : Nat
  sequence : List Char
  strand : Strand
deriving DecidableEq, Repr

/-- Original/modified strings plus the `|`/blank match string. -/
structure AlignmentData where
  original : List Char
  modified : List Char
  matchString : List Char
deriving DecidableEq, Repr

/-- One accepted design, with every field `generateRepairTemplates` fills. -/
structure RepairResult where
  site : Cas9Site
  cloningOligoA : List Char
  cloningOligoB : List Char
  repairTemplate : List Char
  repairTemplateRevComp : List Char
  originalRegion : List Char
  homologyStart : Nat
  mutationPosition : Nat
  aaChangeStatus : List Char
  aaChangesCount : Nat
  dnaAlignment : AlignmentData
  aaAlignment : AlignmentData
  strategy : Strategy
  silentMutationCount : Nat
  score : Int
deriving DecidableEq, Repr

/-- Result of `mutatePam` / `mutateSeed` (`MutationAttempt` in the source;
its `strategy` is `'PAM_SILENT' | 'SEED_SILENT' | null`). -/
structure MutationAttempt where
  sequence : List Char
  mutated : Bool
  strategy : Option Strategy
  mutationCount : Nat
deriving DecidableEq, Repr

/-! ## Codon table and sequence utilities (`src/services/utils.ts`) -/

/-- The static yeast codon table, entry for entry as the source object
`CODON_TABLE` lists it (amino-acid symbol to its codons). -/
def CODON_LIST : List (Char × List (List Char)) :=
  [ ('F', ["TTT".toList, "TTC".toList]),
    ('L', ["TTA".toList, "TTG".toList, "CTT".toList, "CTC".toList, "CTA".toList, "CTG".toList]),
    ('I', ["ATT".toList, "ATC".toList, "ATA".toList]),
    ('M', ["ATG".toList]),
    ('V', ["GTT".toList, "GTC".toList, "GTA".toList, "GTG".toList]),
    ('S', ["TCT".toList, "TCC".toList, "TCA".toList, "TCG".toList, "AGT".toList, "AGC".toList]),
    ('P', ["CCT".toList, "CCC".toList, "CCA".toList, "CCG".toList]),
    ('T', ["ACT".toList, "ACC".toList, "ACA".toList, "ACG".toList]),
    ('A', ["GCT".toList, "GCC".toList, "GCA".toList, "GCG".toList]),
    ('Y', ["TAT".toList, "TAC".toList]),
    ('H', ["CAT".toList, "CAC".toList]),
    ('Q', ["CAA".toList, "CAG".toList]),
    ('N', ["AAT".toList, "AAC".toList]),
    ('K', ["AAA".toList, "AAG".toList]),
    ('D', ["GAT".toList, "GAC".toList]),
    ('E', ["GAA".toList, "GAG".toList]),
    ('C', ["TGT".toList, "TGC".toList]),
    ('W', ["TGG".toList]),
    ('R', ["CGT".toList, "CGC".toList, "CGA".toList, "CGG".toList, "AGA".toList, "AGG".toList]),
    ('G', ["GGT".toList, "GGC".toList, "GGA".toList, "GGG".toList]),
    ('*', ["TAA".toList, "TAG".toList, "TGA".toList]) ]

/-- `CODON_TABLE[key]` for a JS string key: only the one-character keys of the
table exist, anything else is `undefined` (`none`). -/
def CODON_TABLE (key : List Char) : Option (List (List Char)) :=
  match key with
  | [c] => (CODON_LIST.find? (fun p => p.1 = c)).map (fun p => p.2)
  | _ => none

/-- `AA_LOOKUP` inverted from the codon table: the amino acid of a codon
(case-insensitive), `none` for an unknown codon (`codonToAA` in the source). -/
def codonToAA (codon : List Char) : Option Char :=
  let up := codon.map Char.toUpper
  (CODON_LIST.find? (fun p => p.2.contains up)).map (fun p => p.1)

/-- Per-character complement map of `reverseComplement`: `A↔T`, `C↔G` per
case, `N`, `n` and `-` fixed, anything else passes through (`|| base`). -/
def complementChar (c : Char) : Char :=
  match c with
  | 'A' => 'T' | 'T' => 'A' | 'C' => 'G' | 'G' => 'C'
  | 'a' => 't' | 't' => 'a' | 'c' => 'g' | 'g' => 'c'
  | 'N' => 'N' | 'n' => 'n' | '-' => '-'
  | other => other

/-- `reverseComplement`: split, reverse, map through the complement, join. -/
def reverseComplement (seq : List Char) : List Char :=
  seq.reverse.map complementChar

/-- Translation of whole codons of the already-uppercased sequence; a trailing
partial codon is dropped, an unknown codon becomes `'X'`. -/
def translateGo : List Char → List Char
  | c1 :: c2 :: c3 :: rest => ((codonToAA [c1, c2, c3]).getD 'X') :: translateGo rest
  | _ => []

/-- `translate`: uppercase, then consume whole codons only. -/
def translate (seq : List Char) : List Char :=
  translateGo (seq.map Char.toUpper)

/-- `generateSimpleAlignment`: a match string of length `max |a| |b|`, `'|'`
exactly where both strings hold the same non-gap character. -/
def generateSimpleAlignment (seq1 seq2 : List Char) : List Char :=
  (List.range (max seq1.length seq2.length)).map (fun i =>
    let c1 := (seq1.get? i).getD '-'
    let c2 := (seq2.get? i).getD '-'
    if c1 = c2 ∧ c1 ≠ '-' ∧ c2 ≠ '-' then '|' else ' ')

/-! ## Generic helpers for the embedding -/

/-- JS `string.substring(a, b)` (for `a ≤ b`) over a `List Char`. -/
def slice (l : List Char) (a b : Nat) : List Char :=
  (l.drop a).take (b - a)

/-- Write a short string into a list position by position (a run of JS
`list[s + i] = syn[i]` assignments; out-of-range writes are dropped). -/
def writeAt (l : List Char) (s : Nat) : List Char → List Char
  | [] => l
  | c :: cs => writeAt (l.set s c) (s + 1) cs

/-- Stable insertion into a list sorted ascending by `key`: the new element
goes after every element of equal key, as JS's stable `Array.sort` keeps it. -/
def insertByKey {α : Type} (key : α → Nat) (x : α) : List α → List α
  | [] => [x]
  | y :: ys => if key x < key y then x :: y :: ys else y :: insertByKey key x ys

/-- Stable sort ascending by `key` (JS `Array.prototype.sort` with a numeric
comparator is stable). -/
def sortByKey {α : Type} (key : α → Nat) : List α → List α
  | [] => []
  | x :: xs => insertByKey key x (sortByKey key xs)

/-! ## Cas9 site finder (`findCas9Sites`) -/

/-- The window constant (`const WINDOW = 105`). -/
def WINDOW : Nat := 105

/-- A character the case-insensitive regex class `[ACGT]` accepts. -/
def isNucleotide (c : Char) : Bool :=
  c.toUpper = 'A' ∨ c.toUpper = 'C' ∨ c.toUpper = 'G' ∨ c.toUpper = 'T'

/-- The forward pattern `[ACGT]{20}[ACGT]GG` (case-insensitive), anchored at
the start of `l` and needing exactly 23 characters. -/
def matchForward (l : List Char) : Bool :=
  decide (l.length = 23) && (l.take 21).all isNucleotide &&
    (l.drop 21).all (fun c => c.toUpper = 'G')

/-- The reverse pattern `CC[ACGT][ACGT]{20}` (case-insensitive), anchored at
the start of `l` and needing exactly 23 characters. -/
def matchReverse (l : List Char) : Bool :=
  decide (l.length = 23) && (l.take 2).all (fun c => c.toUpper = 'C') &&
    (l.drop 2).all isNucleotide

/-- `(aminoAcidPosition - 1) * 3`, the first nucleotide of the 1-based target
residue's codon. -/
def targetNt (aminoAcidPosition : Nat) : Nat :=
  (aminoAcidPosition - 1) * 3

/-- `Math.max(0, nucleotidePosition - Math.floor(WINDOW / 2))`. -/
def searchStart (aminoAcidPosition : Nat) : Nat :=
  max 0 (targetNt aminoAcidPosition - WINDOW / 2)

/-- `Math.min(geneSequence.length, nucleotidePosition + Math.floor(WINDOW / 2))`. -/
def searchEnd (geneSequence : List Char) (aminoAcidPosition : Nat) : Nat :=
  min geneSequence.length (targetNt aminoAcidPosition + WINDOW / 2)

/-- The region `geneSequence.substring(start, end)` that is scanned. -/
def searchRegion (geneSequence : List Char) (aminoAcidPosition : Nat) : List Char :=
  slice geneSequence (searchStart aminoAcidPosition) (searchEnd geneSequence aminoAcidPosition)

/-- Distance of a site to the target nucleotide
(`Math.abs(a.position - nucleotidePosition)`). -/
def distTo (nucleotidePosition : Nat) (s : Cas9Site) : Nat :=
  ((s.position : Int) - (nucleotidePosition : Int)).natAbs

/-- `findCas9Sites`: scan the clamped window for every overlapping forward
`N20·NGG` and reverse `CC·N21` match (the lookahead regexes restart at
`match.index + 1`, so every offset is tested), then sort ascending by
distance to the target nucleotide. -/
def findCas9Sites (geneSequence : List Char) (aminoAcidPosition : Nat) : List Cas9Site :=
  let nucleotidePosition := targetNt aminoAcidPosition
  let start := searchStart aminoAcidPosition
  let region := searchRegion geneSequence aminoAcidPosition
  let fwd := (List.range region.length).filterMap (fun i =>
    let cand := (region.drop i).take 23
    if matchForward cand then some ⟨start + i, cand, Strand.forward⟩ else none)
  let rev := (List.range region.length).filterMap (fun i =>
    let cand := (region.drop i).take 23
    if matchReverse cand then some ⟨start + i, cand, Strand.reverse⟩ else none)
  sortByKey (distTo nucleotidePosition) (fwd ++ rev)

/-! ## Efficiency scorer (`calculateEfficiencyScore`) -/

/-- Four or more consecutive `T` somewhere in the list
(`spacer.includes('TTTT')`). -/
def hasPolyT : List Char → Bool
  | 'T' :: 'T' :: 'T' :: 'T' :: _ => true
  | _ :: rest => hasPolyT rest
  | [] => false

/-- The 20-nt spacer, uppercased (`guideWithPam.substring(0, 20).toUpperCase()`). -/
def spacerOf (guideWithPam : List Char) : List Char :=
  (guideWithPam.take 20).map Char.toUpper

/-- The 3-nt PAM, uppercased (`guideWithPam.substring(20, 23).toUpperCase()`). -/
def pamOf (guideWithPam : List Char) : List Char :=
  (slice guideWithPam 20 23).map Char.toUpper

/-- The spacer's G/C character count (`gcCount` in the source). -/
def gcCountOf (guideWithPam : List Char) : Nat :=
  ((spacerOf guideWithPam).filter (fun c => c = 'G' ∨ c = 'C')).length

/-- GC adjustment: spacer GC fraction `gcCount / 20` in `[0.4, 0.6]` gives
`+20`, otherwise in `[0.3, 0.8]` gives `+10`, else `−20`.  The source compares
the quotient against the literals `0.4`, `0.6`, `0.3`, `0.8`; for an integer
`gcCount` those comparisons hold exactly when the products by 20 do
(`0.4·20 = 8`, `0.6·20 = 12`, `0.3·20 = 6`, `0.8·20 = 16`, all exact, also in
IEEE doubles), so the thresholds are stated multiplied through by 20. -/
def gcAdjustment (guideWithPam : List Char) : Int :=
  let gcCount := gcCountOf guideWithPam
  if 8 ≤ gcCount ∧ gcCount ≤ 12 then 20
  else if 6 ≤ gcCount ∧ gcCount ≤ 16 then 10
  else -20

/-- Position-20 adjustment (`spacer[19]`): `G → +15`, `C → +5`, `T → −10`,
anything else (including a missing character) `0`. -/
def pos20Adjustment (guideWithPam : List Char) : Int :=
  match (spacerOf guideWithPam).get? 19 with
  | some 'G' => 15
  | some 'C' => 5
  | some 'T' => -10
  | _ => 0

/-- Poly-T adjustment: a `TTTT` run in the spacer gives `−50`. -/
def polyTAdjustment (guideWithPam : List Char) : Int :=
  if hasPolyT (spacerOf guideWithPam) then -50 else 0

/-- PAM-identity adjustment: `CGG`/`TGG → +5`, `GGG → −5`, else `0`. -/
def pamAdjustment (guideWithPam : List Char) : Int :=
  let pam := pamOf guideWithPam
  if pam = "CGG".toList ∨ pam = "TGG".toList then 5
  else if pam = "GGG".toList then -5 else 0

/-- Seed T-count adjustment: four or more `T` in the last 10 spacer
nucleotides (`spacer.substring(10)`) gives `−10`. -/
def seedTAdjustment (guideWithPam : List Char) : Int :=
  if 4 ≤ ((spacerOf guideWithPam).drop 10).count 'T' then -10 else 0

/-- `calculateEfficiencyScore`: base 50, the five additive adjustments in
source order, then the final clamp `Math.max(0, Math.min(100, score))`. -/
def calculateEfficiencyScore (guideWithPam : List Char) : Int :=
  let score : Int := 50
  let score := score + gcAdjustment guideWithPam
  let score := score + pos20Adjustment guideWithPam
  let score := score + polyTAdjustment guideWithPam
  let score := score + pamAdjustment guideWithPam
  let score := score + seedTAdjustment guideWithPam
  max 0 (min 100 score)

/-! ## PAM/seed disruption search (`mutatePam`, `mutateSeed`) -/

/-- The critical PAM bases relative to the homology arm: forward strand
`pamPos+21` and `pamPos+22` (the `GG` of `NGG`), reverse strand `pamPos` and
`pamPos+1` (the `CC` of `CCN`).  Offsets are `Int` because `pamStart -
homologyStart` is plain JS subtraction. -/
def criticalIndicesFor (strand : Strand) (pamPosInHomology : Int) : List Int :=
  match strand with
  | Strand.forward => [pamPosInHomology + 21, pamPosInHomology + 22]
  | Strand.reverse => [pamPosInHomology, pamPosInHomology + 1]

/-- The distinct reading-frame-aligned codon starts
(`Math.floor(idx / 3) * 3`) of the in-range indices, sorted ascending —
the `Set` plus `sort((a, b) => a - b)` of the source. -/
def codonStartsFor (indices : List Int) (len : Nat) : List Nat :=
  sortByKey (fun n => n)
    (((indices.filterMap (fun idx =>
        if 0 ≤ idx ∧ idx < (len : Int) then some (idx.toNat / 3 * 3) else none)).dedup))

/-- Number of nucleotide positions where the synonym differs from the current
codon (`tempChanges` / `totalChanges`). -/
def changedCount (currentCodon synonym : List Char) : Nat :=
  (List.range 3).countP (fun i => synonym.get? i ≠ currentCodon.get? i)

/-- Whether the synonym changes at least one critical base of this codon
(`disrupts`). -/
def disruptsCritical (criticalIndices : List Int) (codonStart : Nat)
    (currentCodon synonym : List Char) : Bool :=
  (List.range 3).any (fun i =>
    criticalIndices.contains ((codonStart : Int) + (i : Int)) ∧
      synonym.get? i ≠ currentCodon.get? i)

/-- The accepted PAM_SILENT candidates of one codon, in codon-table order:
synonymous codons other than the current one, with the same translation, that
change at least one critical base; each is `(codonStart, synonym, changes)`. -/
def pamCodonCandidates (homologyList : List Char) (criticalIndices : List Int)
    (codonStart : Nat) : List (Nat × List Char × Nat) :=
  if codonStart + 3 > homologyList.length then []
  else
    let currentCodon := (slice homologyList codonStart (codonStart + 3)).map Char.toUpper
    match codonToAA currentCodon with
    | none => []
    | some aa =>
      if aa = '*' then []
      else
        ((CODON_TABLE [aa]).getD []).filterMap (fun synonym =>
          if synonym = currentCodon then none
          else if codonToAA synonym ≠ some aa then none
          else if disruptsCritical criticalIndices codonStart currentCodon synonym then
            some (codonStart, synonym, changedCount currentCodon synonym)
          else none)

/-- All accepted PAM_SILENT candidates across the overlapping codons, in the
source's iteration order. -/
def pamCandidates (homologyList : List Char) (criticalIndices : List Int)
    (sortedCodonStarts : List Nat) : List (Nat × List Char × Nat) :=
  sortedCodonStarts.flatMap (pamCodonCandidates homologyList criticalIndices)

/-- The `bestResult`/`minChanges` update of `mutatePam`'s loop: a candidate
replaces the best only when its total change count is strictly smaller
(`tempChanges < minChanges`, `minChanges` starting at `Infinity`). -/
def pamUpdate (homologyList : List Char)
    (st : MutationAttempt × Option Nat) (c : Nat × List Char × Nat) :
    MutationAttempt × Option Nat :=
  match st.2 with
  | none =>
      (⟨writeAt homologyList c.1 c.2.1, true, some Strategy.PAM_SILENT, c.2.2⟩, some c.2.2)
  | some m =>
      if c.2.2 < m then
        (⟨writeAt homologyList c.1 c.2.1, true, some Strategy.PAM_SILENT, c.2.2⟩, some c.2.2)
      else st

/-- `mutatePam`: scan every frame-aligned codon overlapping a critical index,
keep the accepted synonymous substitution with the fewest total nucleotide
changes (first found wins ties); `mutated = false` when nothing is accepted. -/
def mutatePam (homologyList : List Char) (strand : Strand)
    (pamStart homologyStart : Nat) : MutationAttempt :=
  let pamPosInHomology : Int := (pamStart : Int) - (homologyStart : Int)
  let criticalIndices := criticalIndicesFor strand pamPosInHomology
  let sortedCodonStarts := codonStartsFor criticalIndices homologyList.length
  ((pamCandidates homologyList criticalIndices sortedCodonStarts).foldl
      (pamUpdate homologyList) (⟨[], false, none, 0⟩, none)).1

/-- The seed indices relative to the homology arm: forward strand
`pamPos+10 .. pamPos+19`, reverse strand `pamPos+3 .. pamPos+12`. -/
def seedIndicesFor (strand : Strand) (pamPosInHomology : Int) : List Int :=
  match strand with
  | Strand.forward => (List.range 10).map (fun i => pamPosInHomology + 10 + (i : Int))
  | Strand.reverse => (List.range 10).map (fun i => pamPosInHomology + 3 + (i : Int))

/-- In-seed changed bases of a synonym (`seedChanges`). -/
def seedChangedCount (seedIndices : List Int) (codonStart : Nat)
    (currentCodon synonym : List Char) : Nat :=
  (List.range 3).countP (fun i =>
    synonym.get? i ≠ currentCodon.get? i ∧
      seedIndices.contains ((codonStart : Int) + (i : Int)))

/-- The `bestSynonym`/`maxNewSeedChanges`/`bestTotalChanges` fold of
`mutateSeed`'s inner loop: walk the codon-table synonyms, keeping the first
one with strictly more in-seed changed bases than any seen before
(`seedChanges > maxNewSeedChanges`). -/
def seedBestSyn (seedIndices : List Int) (codonStart : Nat) (currentCodon : List Char)
    (aa : Char) (synonyms : List (List Char)) : Option (List Char) × Nat × Nat :=
  synonyms.foldl
    (fun (acc : Option (List Char) × Nat × Nat) synonym =>
      if synonym = currentCodon then acc
      else if codonToAA synonym ≠ some aa then acc
      else
        if seedChangedCount seedIndices codonStart currentCodon synonym > acc.2.1 then
          (some synonym, seedChangedCount seedIndices codonStart currentCodon synonym,
            changedCount currentCodon synonym)
        else acc)
    (none, 0, 0)

/-- The synonyms `seedBestSyn` actually weighs, with their in-seed and total
change counts: all synonymous codons other than the current one that keep the
amino acid. -/
def seedSynCandidates (seedIndices : List Int) (codonStart : Nat)
    (currentCodon : List Char) (aa : Char) (synonyms : List (List Char)) :
    List (List Char × Nat × Nat) :=
  synonyms.filterMap (fun synonym =>
    if synonym = currentCodon then none
    else if codonToAA synonym ≠ some aa then none
    else some (synonym, seedChangedCount seedIndices codonStart currentCodon synonym,
      changedCount currentCodon synonym))

/-- The accumulator state holding candidate `c`. -/
def seedAcc (c : List Char × Nat × Nat) : Option (List Char) × Nat × Nat :=
  (some c.1, c.2.1, c.2.2)

/-- `seedBestSyn`'s accumulation over the weighed candidates. -/
def runMaxOpt (acc : Option (List Char) × Nat × Nat) :
    List (List Char × Nat × Nat) → Option (List Char) × Nat × Nat
  | [] => acc
  | c :: l => runMaxOpt (if acc.2.1 < c.2.1 then seedAcc c else acc) l

/-- First candidate of maximal in-seed change count, starting from `b`. -/
def runMaxSyn (b : List Char × Nat × Nat) :
    List (List Char × Nat × Nat) → List Char × Nat × Nat
  | [] => b
  | c :: l => runMaxSyn (if b.2.1 < c.2.1 then c else b) l

/-- One codon of `mutateSeed`'s walk: apply the synonymous substitution with
the most in-seed changed bases (first found wins ties) when it changes at
least one seed base; returns the updated list and the substitution's total
nucleotide change count (0 when nothing is applied). -/
def seedStep (seedIndices : List Int) (listCopy : List Char) (codonStart : Nat) :
    List Char × Nat :=
  if codonStart + 3 > listCopy.length then (listCopy, 0)
  else
    let currentCodon := (slice listCopy codonStart (codonStart + 3)).map Char.toUpper
    match codonToAA currentCodon with
    | none => (listCopy, 0)
    | some aa =>
      if aa = '*' then (listCopy, 0)
      else
        match seedBestSyn seedIndices codonStart currentCodon aa
            ((CODON_TABLE [aa]).getD []) with
        | (some bestSynonym, maxNewSeedChanges, bestTotalChanges) =>
          if maxNewSeedChanges > 0 then
            (writeAt listCopy codonStart bestSynonym, bestTotalChanges)
          else (listCopy, 0)
        | (none, _, _) => (listCopy, 0)

/-- `mutateSeed`'s loop over the sorted codon starts, accumulating the total
nucleotide edit count and breaking as soon as it reaches 2. -/
def seedLoop (seedIndices : List Int) :
    List Nat → List Char → Nat → List Char × Nat
  | [], listCopy, total => (listCopy, total)
  | cs :: rest, listCopy, total =>
    let r := seedStep seedIndices listCopy cs
    let total' := total + r.2
    if 2 ≤ total' then (r.1, total') else seedLoop seedIndices rest r.1 total'

/-- `mutateSeed`: walk the seed-overlapping codons in ascending order
accumulating synonymous edits; succeed only when the accumulated nucleotide
edit count reaches 2. -/
def mutateSeed (homologyList : List Char) (strand : Strand)
    (pamStart homologyStart : Nat) : MutationAttempt :=
  let pamPosInHomology : Int := (pamStart : Int) - (homologyStart : Int)
  let seedIndices := seedIndicesFor strand pamPosInHomology
  let sortedCodonStarts := codonStartsFor seedIndices homologyList.length
  let r := seedLoop seedIndices sortedCodonStarts homologyList 0
  if 2 ≤ r.2 then ⟨r.1, true, some Strategy.SEED_SILENT, r.2⟩
  else ⟨[], false, none, 0⟩

/-- The accepted candidate list `mutatePam` folds over, as a function of its
four arguments. -/
def pamCandidatesOf (homologyList : List Char) (strand : Strand)
    (pamStart homologyStart : Nat) : List (Nat × List Char × Nat) :=
  pamCandidates homologyList
    (criticalIndicesFor strand ((pamStart : Int) - (homologyStart : Int)))
    (codonStartsFor (criticalIndicesFor strand ((pamStart : Int) - (homologyStart : Int)))
      homologyList.length)

/-- The non-failure state of `mutatePam`'s fold: the best candidate so far,
with its change count doubling as the `minChanges` register. -/
def mkBest (hl : List Char) (c : Nat × List Char × Nat) : MutationAttempt × Option Nat :=
  (⟨writeAt hl c.1 c.2.1, true, some Strategy.PAM_SILENT, c.2.2⟩, some c.2.2)

/-- The first candidate of minimal change count, starting from `b`: a later
candidate replaces the best only when strictly smaller. -/
def runBest (b : Nat × List Char × Nat) :
    List (Nat × List Char × Nat) → Nat × List Char × Nat
  | [] => b
  | c :: l => runBest (if c.2.2 < b.2.2 then c else b) l

/-- The seed walk `mutateSeed` performs, as a function of its arguments:
final list and accumulated total. -/
def seedWalkOf (homologyList : List Char) (strand : Strand)
    (pamStart homologyStart : Nat) : List Char × Nat :=
  seedLoop (seedIndicesFor strand ((pamStart : Int) - (homologyStart : Int)))
    (codonStartsFor (seedIndicesFor strand ((pamStart : Int) - (homologyStart : Int)))
      homologyList.length)
    homologyList 0

/-! ## Repair template synthesizer (`generateRepairTemplates`) -/

/-- `const minFlankingLength = 30`: the homology-arm flank on each side. -/
def minFlankingLength : Nat := 30

/-- `const contextFlank = 150`: the verification window flank. -/
def contextFlank : Nat := 150

/-- `site.position + 17`, the blunt cut position of a site. -/
def cas9CutPosition (site : Cas9Site) : Nat :=
  site.position + 17

/-- `Math.max(0, Math.min(cas9CutPosition, mutationPosition) - minFlankingLength)`. -/
def homologyStartFor (mutationPosition : Nat) (site : Cas9Site) : Nat :=
  max 0 (min (cas9CutPosition site) mutationPosition - minFlankingLength)

/-- `Math.min(len, Math.max(cas9CutPosition, mutationPosition) + minFlankingLength)`. -/
def homologyEndFor (geneSequence : List Char) (mutationPosition : Nat) (site : Cas9Site) : Nat :=
  min geneSequence.length (max (cas9CutPosition site) mutationPosition + minFlankingLength)

/-- Step 1 of the per-site loop: splice the desired codon into the homology
region.  `none` skips the site (`continue`) — exactly when the codon start is
in range but the requested amino acid has no codon-table entry.  When the
codon start is out of range the region is left unchanged, as in the source. -/
def applyDesiredMutation (region : List Char) (codonStartInHomology : Nat)
    (newAminoAcid : List Char) : Option (List Char) :=
  if codonStartInHomology < region.length then
    match CODON_TABLE (newAminoAcid.map Char.toUpper) with
    | none => none
    | some newCodonOptions =>
      if newCodonOptions.isEmpty then none
      else
        let originalCodon :=
          (slice region codonStartInHomology (codonStartInHomology + 3)).map Char.toUpper
        let newCodon :=
          (newCodonOptions.find? (fun opt => opt ≠ originalCodon)).getD
            (newCodonOptions.headD [])
        some (writeAt region codonStartInHomology newCodon)
  else some region

/-- Step 2: did the desired mutation itself change a critical PAM base?
(the source's `pamAlreadyDisrupted` loop, guarding `0 ≤ idx < length`). -/
def pamAlreadyDisruptedFor (originalRegion homologyList : List Char)
    (criticalIndices : List Int) : Bool :=
  criticalIndices.any (fun idx =>
    decide (0 ≤ idx) && decide (idx < (homologyList.length : Int)) &&
      (match homologyList.get? idx.toNat, originalRegion.get? idx.toNat with
       | some a, some b => a.toUpper ≠ b.toUpper
       | _, _ => false))

/-- Steps 2–4: fixed strategy precedence.  An already-disrupted PAM short-
circuits with `PAM_DISRUPTED_BY_TARGET` and no silent search; otherwise
`mutatePam`, then `mutateSeed`; `none` discards the site.  Returns the final
homology list, the strategy and the silent-mutation count. -/
def chooseStrategy (originalRegion homologyList : List Char) (strand : Strand)
    (pamStart homologyStart : Nat) : Option (List Char × Strategy × Nat) :=
  if pamAlreadyDisruptedFor originalRegion homologyList
      (criticalIndicesFor strand ((pamStart : Int) - (homologyStart : Int))) then
    some (homologyList, Strategy.PAM_DISRUPTED_BY_TARGET, 0)
  else
    match (mutatePam homologyList strand pamStart homologyStart).mutated,
        (mutatePam homologyList strand pamStart homologyStart).strategy with
    | true, some s =>
      some ((mutatePam homologyList strand pamStart homologyStart).sequence, s,
        (mutatePam homologyList strand pamStart homologyStart).mutationCount)
    | _, _ =>
      match (mutateSeed homologyList strand pamStart homologyStart).mutated,
          (mutateSeed homologyList strand pamStart homologyStart).strategy with
      | true, some s =>
        some ((mutateSeed homologyList strand pamStart homologyStart).sequence, s,
          (mutateSeed homologyList strand pamStart homologyStart).mutationCount)
      | _, _ => none

/-- Step 5 (`// 5. Format Case`): bases differing case-insensitively from the
unmutated original are rendered lowercase, unchanged bases uppercase. -/
def formatCase (originalRegion finalHomologyList : List Char) : List Char :=
  (List.range finalHomologyList.length).map (fun i =>
    let finalChar := (finalHomologyList.get? i).getD '-'
    match originalRegion.get? i with
    | some originalChar =>
      if finalChar.toUpper = originalChar.toUpper then finalChar.toUpper
      else finalChar.toLower
    | none => finalChar.toLower)

/-- Splice the rendered template into the wide verification window
(`repairedLargeList[tempStartInLarge + i] = mutatedHomology[i]`, guarded to
the window). -/
def spliceGo (base : List Char) (t : Int) : List Char → List Char
  | [] => base
  | c :: cs =>
    spliceGo (if 0 ≤ t ∧ t < (base.length : Int) then base.set t.toNat c else base) (t + 1) cs

/-- Step 7 (verification): translate the ±150-nt window (frame-aligned via
`alignStart % 3`) of the unedited gene and of the gene with the rendered
template spliced in.  Returns `(originalLargeAA, repairedLargeAA)`. -/
def verificationAAs (geneSequence : List Char) (mutationPosition homologyStart : Nat)
    (mutatedHomology : List Char) : List Char × List Char :=
  let alignStart := max 0 (mutationPosition - contextFlank)
  let alignEnd := min geneSequence.length (mutationPosition + 3 + contextFlank)
  let originalLargeDna := slice geneSequence alignStart alignEnd
  let tempStartInLarge : Int := (homologyStart : Int) - (alignStart : Int)
  let repairedLargeDna := spliceGo originalLargeDna tempStartInLarge mutatedHomology
  let frame := alignStart % 3
  (translate (originalLargeDna.drop frame), translate (repairedLargeDna.drop frame))

/-- Positions where the two protein strings differ over their overlap
(`aaDiffCount`; `List.zip` truncates to the shorter string). -/
def countDiffs (a b : List Char) : Nat :=
  (a.zip b).countP (fun p => p.1 ≠ p.2)

/-- The verification count recomputed from a result's own fields. -/
def verifyDiffCount (geneSequence : List Char) (mutationPosition homologyStart : Nat)
    (mutatedHomology : List Char) : Nat :=
  countDiffs (verificationAAs geneSequence mutationPosition homologyStart mutatedHomology).1
    (verificationAAs geneSequence mutationPosition homologyStart mutatedHomology).2

/-- The canonical guide+PAM of a site for scoring and oligos: the raw match,
reverse-complemented first when the site is reverse-strand. -/
def sgRNAFor (site : Cas9Site) : List Char :=
  match site.strand with
  | Strand.reverse => reverseComplement site.sequence
  | Strand.forward => site.sequence

/-- The uppercase 20-nt spacer of the forward-oriented guide
(`sgRNASeqWithPam.substring(0, 20).toUpperCase()`). -/
def guideSeq20For (site : Cas9Site) : List Char :=
  ((sgRNAFor site).take 20).map Char.toUpper

/-- Steps 5–7 packaged: the `RepairResult` record the source pushes, before
the `aaDiffCount !== 1` acceptance guard (its `aaChangesCount` holds the
recomputed verification count). -/
def mkRepairResult (geneSequence : List Char) (mutationPosition : Nat) (site : Cas9Site)
    (originalRegion : List Char) (homologyStart : Nat) (finalHomologyList : List Char)
    (strategy : Strategy) (silentMutationCount : Nat) : RepairResult :=
  let mutatedHomology := formatCase originalRegion finalHomologyList
  let revComp := reverseComplement mutatedHomology
  let efficiencyScore := calculateEfficiencyScore (sgRNAFor site)
  let cloningOligoA := "gatc".toList ++ guideSeq20For site ++ "gttttagagctag".toList
  let cloningOligoB :=
    "ctagctctaaaac".toList ++ (reverseComplement (guideSeq20For site)).map Char.toUpper
  let pair := verificationAAs geneSequence mutationPosition homologyStart mutatedHomology
  { site := site
    cloningOligoA := cloningOligoA
    cloningOligoB := cloningOligoB
    repairTemplate := mutatedHomology
    repairTemplateRevComp := revComp
    originalRegion := originalRegion
    homologyStart := homologyStart
    mutationPosition := mutationPosition
    aaChangeStatus := "success".toList
    aaChangesCount := countDiffs pair.1 pair.2
    dnaAlignment :=
      ⟨originalRegion.map Char.toUpper, mutatedHomology.map Char.toUpper,
        generateSimpleAlignment (originalRegion.map Char.toUpper)
          (mutatedHomology.map Char.toUpper)⟩
    aaAlignment := ⟨pair.1, pair.2, generateSimpleAlignment pair.1 pair.2⟩
    strategy := strategy
    silentMutationCount := silentMutationCount
    score := efficiencyScore }

/-- The body of `generateRepairTemplates`' per-site loop: `none` exactly where
the source `continue`s past the site, `some` where it pushes a result. -/
def processSite (geneSequence : List Char) (mutationPosition : Nat)
    (newAminoAcid : List Char) (site : Cas9Site) : Option RepairResult :=
  match applyDesiredMutation
      (slice geneSequence (homologyStartFor mutationPosition site)
        (homologyEndFor geneSequence mutationPosition site))
      (mutationPosition - homologyStartFor mutationPosition site) newAminoAcid with
  | none => none
  | some homologyList =>
    match chooseStrategy
        (slice geneSequence (homologyStartFor mutationPosition site)
          (homologyEndFor geneSequence mutationPosition site))
        homologyList site.strand site.position (homologyStartFor mutationPosition site) with
    | none => none
    | some (finalHomologyList, strategy, silentMutationCount) =>
      if (mkRepairResult geneSequence mutationPosition site
            (slice geneSequence (homologyStartFor mutationPosition site)
              (homologyEndFor geneSequence mutationPosition site))
            (homologyStartFor mutationPosition site) finalHomologyList strategy
            silentMutationCount).aaChangesCount = 1 then
        some (mkRepairResult geneSequence mutationPosition site
          (slice geneSequence (homologyStartFor mutationPosition site)
            (homologyEndFor geneSequence mutationPosition site))
          (homologyStartFor mutationPosition site) finalHomologyList strategy
          silentMutationCount)
      else none

/-- `generateRepairTemplates`: run the per-site loop over the candidate list
in its given order, collect the accepted designs, and return the first 5
(`results.slice(0, 5)`). -/
def generateRepairTemplates (geneSequence : List Char) (cas9Sites : List Cas9Site)
    (aminoAcidPosition : Nat) (newAminoAcid : List Char) : List RepairResult :=
  ((cas9Sites.filterMap
      (processSite geneSequence (targetNt aminoAcidPosition) newAminoAcid)).take 5)

/-! ## A concrete worked example

A 120-nt, 40-codon gene; residue 11 is `GGT` (Gly) at nucleotides 30–32, with
a forward Cas9 site at offset 9 whose PAM `AGG` occupies 29–31, so mutating
residue 11 to Leu (`TTA`) itself destroys the critical `GG`. -/

def sampleGene : List Char :=
  ("ACTACTACT" ++ "GCTGCTGCTGCTGCTGCTGC" ++ "A" ++ "GGT" ++
   "ACTACTACTACTACTACTACTACTACTACTACTACTACTACTACTACTACTACTACTACTACTACTACTACTACTACTACTACTACT").toList

def sampleSite : Cas9Site :=
  ⟨9, "GCTGCTGCTGCTGCTGCTGCAGG".toList, Strand.forward⟩

/-- The one design the example yields (checked by evaluation below). -/
def sampleResult : RepairResult :=
  { site := sampleSite
    cloningOligoA := "gatcGCTGCTGCTGCTGCTGCTGCgttttagagctag".toList
    cloningOligoB := "ctagctctaaaacGCAGCAGCAGCAGCAGCAGC".toList
    repairTemplate := "ACTACTACTGCTGCTGCTGCTGCTGCTGCAttaACTACTACTACTACTACTACTACTACT".toList
    repairTemplateRevComp := "AGTAGTAGTAGTAGTAGTAGTAGTAGTtaaTGCAGCAGCAGCAGCAGCAGCAGTAGTAGT".toList
    originalRegion := "ACTACTACTGCTGCTGCTGCTGCTGCTGCAGGTACTACTACTACTACTACTACTACTACT".toList
    homologyStart := 0
    mutationPosition := 30
    aaChangeStatus := "success".toList
    aaChangesCount := 1
    dnaAlignment :=
      ⟨"ACTACTACTGCTGCTGCTGCTGCTGCTGCAGGTACTACTACTACTACTACTACTACTACT".toList,
       "ACTACTACTGCTGCTGCTGCTGCTGCTGCATTAACTACTACTACTACTACTACTACTACT".toList,
       "||||||||||||||||||||||||||||||   |||||||||||||||||||||||||||".toList⟩
    aaAlignment :=
      ⟨"TTTAAAAAAAGTTTTTTTTTTTTTTTTTTTTTTTTTTTTT".toList,
       "TTTAAAAAAALTTTTTTTTTTTTTTTTTTTTTTTTTTTTT".toList,
       "|||||||||| |||||||||||||||||||||||||||||".toList⟩
    strategy := Strategy.PAM_DISRUPTED_BY_TARGET
    silentMutationCount := 0
    score := 65 }

/-! ## Basic facts about the embedding -/

theorem slice_length (l : List Char) (a b : Nat) :
    (slice l a b).length = min (b - a) (l.length - a) := by
  simp [slice]

theorem writeAt_length (cs : List Char) (l : List Char) (s : Nat) :
    (writeAt l s cs).length = l.length := by
  induction cs generalizing l s with
  | nil => rfl
  | cons c cs ih => simp [writeAt, ih]

theorem spliceGo_length (cs : List Char) (base : List Char) (t : Int) :
    (spliceGo base t cs).length = base.length := by
  induction cs generalizing base t with
  | nil => rfl
  | cons c cs ih =>
    simp only [spliceGo]
    rw [ih]
    split <;> simp

theorem reverseComplement_length (l : List Char) :
    (reverseComplement l).length = l.length := by
  simp [reverseComplement]

theorem mem_insertByKey {α : Type} (key : α → Nat) (x y : α) (l : List α) :
    y ∈ insertByKey key x l ↔ y ∈ x :: l := by
  induction l with
  | nil => simp [insertByKey]
  | cons z zs ih =>
    simp only [insertByKey]
    split
    · simp
    · simp only [List.mem_cons, ih]
      tauto

theorem mem_sortByKey {α : Type} (key : α → Nat) (y : α) (l : List α) :
    y ∈ sortByKey key l ↔ y ∈ l := by
  induction l with
  | nil => simp [sortByKey]
  | cons z zs ih =>
    simp only [sortByKey, mem_insertByKey, List.mem_cons, ih]

/-! ## C8 — the efficiency scorer is pure, additive and clamped to [0, 100] -/

/-- C8.  `calculateEfficiencyScore` is a pure total function of the guide+PAM
string: it equals the base 50 plus the five independent additive adjustments
(GC fraction, position-20 base, poly-T run, PAM identity, seed T-count)
summed before one final clamp, and its value always lies in `[0, 100]`. -/
theorem calculateEfficiencyScore_bounds (guideWithPam : List Char) :
    calculateEfficiencyScore guideWithPam =
      max 0 (min 100 (50 + gcAdjustment guideWithPam + pos20Adjustment guideWithPam +
        polyTAdjustment guideWithPam + pamAdjustment guideWithPam +
        seedTAdjustment guideWithPam)) ∧
    0 ≤ calculateEfficiencyScore guideWithPam ∧
    calculateEfficiencyScore guideWithPam ≤ 100 := by
  refine ⟨rfl, ?_, ?_⟩
  · exact le_max_left 0 _
  · exact max_le (by norm_num) (min_le_left _ _)

/-! ## C2 — the Cas9 search window: clamped, but of width 104, not 105 -/

set_option maxRecDepth 8000 in
/-- C2 counterexample.  With a 300-nt gene and residue 35 the target
nucleotide is 102, far from both ends, so a width-105 window centered there
fits entirely inside the sequence; yet the scanned region has only 104
characters, refuting the claimed fixed width of 105. -/
theorem searchWindow_not_105 :
    52 ≤ targetNt 35 ∧
    targetNt 35 + 53 ≤ (List.replicate 300 'A').length ∧
    (searchRegion (List.replicate 300 'A') 35).length = 104 ∧
    (searchRegion (List.replicate 300 'A') 35).length ≠ 105 := by
  decide

/-- C2 (amended).  `findCas9Sites` scans
`geneSequence.substring(max(0, p−⌊105/2⌋), min(len, p+⌊105/2⌋))` for
`p = (r−1)·3`: a window of width at most `2·⌊105/2⌋ = 104`, exactly 104 when
no clamping occurs, clamped to the sequence bounds without error near either
end; every reported site lies entirely inside the clamped window. -/
theorem findCas9Sites_window_clamped (g : List Char) (r : Nat) :
    (searchRegion g r).length =
      min g.length (targetNt r + 52) - max 0 (targetNt r - 52) ∧
    (searchRegion g r).length ≤ 104 ∧
    (52 ≤ targetNt r → targetNt r + 52 ≤ g.length → (searchRegion g r).length = 104) ∧
    (∀ s ∈ findCas9Sites g r,
      searchStart r ≤ s.position ∧ s.position + 23 ≤ searchEnd g r) := by
  have hlen : (searchRegion g r).length =
      min (searchEnd g r - searchStart r) (g.length - searchStart r) := by
    simp [searchRegion, slice_length]
  have hstart : searchStart r = max 0 (targetNt r - 52) := by
    simp [searchStart, WINDOW]
  have hend : searchEnd g r = min g.length (targetNt r + 52) := by
    simp [searchEnd, WINDOW]
  refine ⟨?_, ?_, ?_, ?_⟩
  · rw [hlen, hstart, hend]; omega
  · rw [hlen, hstart, hend]; omega
  · intro h1 h2; rw [hlen, hstart, hend]; omega
  · intro s hs
    have hmem : s ∈ (List.range (searchRegion g r).length).filterMap (fun i =>
        let cand := ((searchRegion g r).drop i).take 23
        if matchForward cand then some ⟨searchStart r + i, cand, Strand.forward⟩ else none) ++
        (List.range (searchRegion g r).length).filterMap (fun i =>
        let cand := ((searchRegion g r).drop i).take 23
        if matchReverse cand then some ⟨searchStart r + i, cand, Strand.reverse⟩ else none) := by
      simpa [findCas9Sites, mem_sortByKey] using hs
    have hbound : ∀ i : Nat, i ∈ List.range (searchRegion g r).length →
        ∀ cand : List Char, cand = ((searchRegion g r).drop i).take 23 →
        cand.length = 23 →
        searchStart r ≤ searchStart r + i ∧ searchStart r + i + 23 ≤ searchEnd g r := by
      intro i hi cand hcand h23
      have hi' : i < (searchRegion g r).length := List.mem_range.mp hi
      have : cand.length = min 23 ((searchRegion g r).length - i) := by
        rw [hcand]; simp
      have hreg : i + 23 ≤ (searchRegion g r).length := by omega
      have hregle : (searchRegion g r).length ≤ searchEnd g r - searchStart r := by
        rw [hlen]; omega
      constructor
      · omega
      · omega
    rcases List.mem_append.mp hmem with hf | hf <;>
    · rcases List.mem_filterMap.mp hf with ⟨i, hi, hif⟩
      simp only at hif
      split at hif
      case isTrue hm =>
        cases hif
        have h23 : (((searchRegion g r).drop i).take 23).length = 23 :=
          of_decide_eq_true (Bool.and_elim_left (Bool.and_elim_left hm))
        exact hbound i hi _ rfl h23
      case isFalse => cases hif

/-! ## Inverting the per-site loop body -/

theorem mk_homologyStart (g : List Char) (mp : Nat) (site : Cas9Site)
    (o : List Char) (hs : Nat) (fh : List Char) (st : Strategy) (cnt : Nat) :
    (mkRepairResult g mp site o hs fh st cnt).homologyStart = hs := rfl

theorem mk_repairTemplate (g : List Char) (mp : Nat) (site : Cas9Site)
    (o : List Char) (hs : Nat) (fh : List Char) (st : Strategy) (cnt : Nat) :
    (mkRepairResult g mp site o hs fh st cnt).repairTemplate = formatCase o fh := rfl

set_option maxRecDepth 4000 in
theorem mk_aaChangesCount (g : List Char) (mp : Nat) (site : Cas9Site)
    (o : List Char) (hs : Nat) (fh : List Char) (st : Strategy) (cnt : Nat) :
    (mkRepairResult g mp site o hs fh st cnt).aaChangesCount =
      verifyDiffCount g mp hs (formatCase o fh) := rfl

theorem mk_site (g : List Char) (mp : Nat) (site : Cas9Site)
    (o : List Char) (hs : Nat) (fh : List Char) (st : Strategy) (cnt : Nat) :
    (mkRepairResult g mp site o hs fh st cnt).site = site := rfl

theorem mk_originalRegion (g : List Char) (mp : Nat) (site : Cas9Site)
    (o : List Char) (hs : Nat) (fh : List Char) (st : Strategy) (cnt : Nat) :
    (mkRepairResult g mp site o hs fh st cnt).originalRegion = o := rfl

theorem mk_strategy (g : List Char) (mp : Nat) (site : Cas9Site)
    (o : List Char) (hs : Nat) (fh : List Char) (st : Strategy) (cnt : Nat) :
    (mkRepairResult g mp site o hs fh st cnt).strategy = st := rfl

theorem mk_silentMutationCount (g : List Char) (mp : Nat) (site : Cas9Site)
    (o : List Char) (hs : Nat) (fh : List Char) (st : Strategy) (cnt : Nat) :
    (mkRepairResult g mp site o hs fh st cnt).silentMutationCount = cnt := rfl

theorem mk_cloningOligoA (g : List Char) (mp : Nat) (site : Cas9Site)
    (o : List Char) (hs : Nat) (fh : List Char) (st : Strategy) (cnt : Nat) :
    (mkRepairResult g mp site o hs fh st cnt).cloningOligoA =
      "gatc".toList ++ guideSeq20For site ++ "gttttagagctag".toList := rfl

theorem mk_cloningOligoB (g : List Char) (mp : Nat) (site : Cas9Site)
    (o : List Char) (hs : Nat) (fh : List Char) (st : Strategy) (cnt : Nat) :
    (mkRepairResult g mp site o hs fh st cnt).cloningOligoB =
      "ctagctctaaaac".toList ++
        (reverseComplement (guideSeq20For site)).map Char.toUpper := rfl

/-- Inversion of `processSite`: a packaged result comes from a successfully
applied desired mutation and a successfully chosen strategy, is exactly the
record `mkRepairResult` builds from them, and passed the verification guard. -/
theorem processSite_some {g : List Char} {mp : Nat} {aa : List Char} {site : Cas9Site}
    {r : RepairResult} (h : processSite g mp aa site = some r) :
    ∃ homologyList finalHomologyList strategy silentMutationCount,
      applyDesiredMutation (slice g (homologyStartFor mp site) (homologyEndFor g mp site))
          (mp - homologyStartFor mp site) aa = some homologyList ∧
      chooseStrategy (slice g (homologyStartFor mp site) (homologyEndFor g mp site))
          homologyList site.strand site.position (homologyStartFor mp site) =
        some (finalHomologyList, strategy, silentMutationCount) ∧
      r = mkRepairResult g mp site
          (slice g (homologyStartFor mp site) (homologyEndFor g mp site))
          (homologyStartFor mp site) finalHomologyList strategy silentMutationCount ∧
      r.aaChangesCount = 1 := by
  unfold processSite at h
  split at h
  next => exact absurd h (by simp)
  next homologyList ha =>
    split at h
    next => exact absurd h (by simp)
    next fh st cnt hc =>
      split at h
      next hguard =>
        refine ⟨homologyList, fh, st, cnt, ha, hc, (Option.some.inj h).symm, ?_⟩
        rw [← Option.some.inj h]
        exact hguard
      next => exact absurd h (by simp)

/-- Membership in the final result list comes from some listed site's
accepted design. -/
theorem mem_generateRepairTemplates {g : List Char} {sites : List Cas9Site}
    {pos : Nat} {aa : List Char} {r : RepairResult}
    (hr : r ∈ generateRepairTemplates g sites pos aa) :
    ∃ site ∈ sites, processSite g (targetNt pos) aa site = some r := by
  have hmem : r ∈ sites.filterMap (processSite g (targetNt pos) aa) :=
    List.take_subset 5 _ hr
  rcases List.mem_filterMap.mp hmem with ⟨site, hsite, hps⟩
  exact ⟨site, hsite, hps⟩

/-! ## C1 — exactly one amino-acid change across the verification window -/

/-- C1.  Every returned design verifies: re-translating the ±150-nt window
(frame-aligned as the source does) of the unedited gene and of the gene with
the result's own rendered repair template spliced back in at its own
`homologyStart` gives protein strings differing in exactly one position over
their overlap, and `aaChangesCount = 1`.  A site whose edit would violate
this is never packaged, since every list member satisfies the property. -/
theorem generateRepairTemplates_one_aa_change (g : List Char) (sites : List Cas9Site)
    (pos : Nat) (aa : List Char) (r : RepairResult)
    (hr : r ∈ generateRepairTemplates g sites pos aa) :
    verifyDiffCount g (targetNt pos) r.homologyStart r.repairTemplate = 1 ∧
    r.aaChangesCount = 1 := by
  rcases mem_generateRepairTemplates hr with ⟨site, _, hps⟩
  rcases processSite_some hps with ⟨hl, fh, st, cnt, _, _, hre, hcc⟩
  refine ⟨?_, hcc⟩
  rw [hre, mk_homologyStart, mk_repairTemplate]
  rw [hre, mk_aaChangesCount] at hcc
  exact hcc

set_option maxRecDepth 8000 in
/-- The example design is really produced (evaluated by the kernel). -/
theorem sampleResult_mem :
    sampleResult ∈ generateRepairTemplates sampleGene [sampleSite] 11 ['L'] := by
  decide

/-- C1 witness: the worked example's result, at concrete input. -/
theorem generateRepairTemplates_one_aa_change_witness :
    verifyDiffCount sampleGene (targetNt 11) sampleResult.homologyStart
      sampleResult.repairTemplate = 1 ∧
    sampleResult.aaChangesCount = 1 :=
  generateRepairTemplates_one_aa_change sampleGene [sampleSite] 11 ['L'] sampleResult
    sampleResult_mem

/-! ## C3 — the homology-arm flank is the fixed 30-nt default -/

/-- C3 (the code as it is).  `generateRepairTemplates` takes no oligo-length
configuration: for every returned design the homology arm runs from
`max(0, min(cut, target) − 30)` to `min(len, max(cut, target) + 30)` with the
hard-coded 30-nt flank, whatever the caller wanted. -/
theorem homology_flank_fixed_thirty (g : List Char) (sites : List Cas9Site)
    (pos : Nat) (aa : List Char) (r : RepairResult)
    (hr : r ∈ generateRepairTemplates g sites pos aa) :
    r.homologyStart = max 0 (min (r.site.position + 17) (targetNt pos) - 30) ∧
    r.originalRegion = slice g r.homologyStart
      (min g.length (max (r.site.position + 17) (targetNt pos) + 30)) := by
  rcases mem_generateRepairTemplates hr with ⟨site, _, hps⟩
  rcases processSite_some hps with ⟨hl, fh, st, cnt, _, _, hre, _⟩
  rw [hre, mk_homologyStart, mk_originalRegion, mk_site]
  exact ⟨rfl, rfl⟩

/-- C3 witness: at the concrete example the arm is `[0, 60)`, the 30-flank
bounds. -/
theorem homology_flank_fixed_thirty_witness :
    sampleResult.homologyStart =
      max 0 (min (sampleResult.site.position + 17) (targetNt 11) - 30) ∧
    sampleResult.originalRegion = slice sampleGene sampleResult.homologyStart
      (min sampleGene.length (max (sampleResult.site.position + 17) (targetNt 11) + 30)) :=
  homology_flank_fixed_thirty sampleGene [sampleSite] 11 ['L'] sampleResult sampleResult_mem

/-! ## C9 — an unmapped amino acid soft-skips each site, never throws -/

/-- C9.  When the requested amino acid has no codon-table entry (and the
target codon lies inside the gene, so the per-site guard reaches the lookup),
every candidate site is skipped with no exception and no partial result, and
the overall answer is the empty list. -/
theorem invalid_amino_acid_soft_skip (g : List Char) (sites : List Cas9Site)
    (pos : Nat) (aa : List Char)
    (hmap : CODON_TABLE (aa.map Char.toUpper) = none)
    (hpos : targetNt pos < g.length) :
    (∀ site, processSite g (targetNt pos) aa site = none) ∧
    generateRepairTemplates g sites pos aa = [] := by
  have hskip : ∀ site, processSite g (targetNt pos) aa site = none := by
    intro site
    have hs_le : homologyStartFor (targetNt pos) site ≤ targetNt pos := by
      simp only [homologyStartFor]
      omega
    have hm_lt : targetNt pos < homologyEndFor g (targetNt pos) site := by
      simp only [homologyEndFor, minFlankingLength]
      omega
    have he_le : homologyEndFor g (targetNt pos) site ≤ g.length := by
      simp only [homologyEndFor]
      omega
    have hreg : (slice g (homologyStartFor (targetNt pos) site)
        (homologyEndFor g (targetNt pos) site)).length =
        homologyEndFor g (targetNt pos) site - homologyStartFor (targetNt pos) site := by
      rw [slice_length]; omega
    have hin : targetNt pos - homologyStartFor (targetNt pos) site <
        (slice g (homologyStartFor (targetNt pos) site)
          (homologyEndFor g (targetNt pos) site)).length := by
      omega
    have happ : applyDesiredMutation
        (slice g (homologyStartFor (targetNt pos) site)
          (homologyEndFor g (targetNt pos) site))
        (targetNt pos - homologyStartFor (targetNt pos) site) aa = none := by
      unfold applyDesiredMutation
      rw [if_pos hin, hmap]
    unfold processSite
    rw [happ]
  refine ⟨hskip, ?_⟩
  have : sites.filterMap (processSite g (targetNt pos) aa) = [] := by
    rw [List.filterMap_eq_nil_iff]
    intro site _
    exact hskip site
  simp [generateRepairTemplates, this]

/-- C9 witness: requesting amino acid `B` (no codon) on the worked example
skips the only site and returns the empty list. -/
theorem invalid_amino_acid_soft_skip_witness :
    (∀ site, processSite sampleGene (targetNt 11) ['B'] site = none) ∧
    generateRepairTemplates sampleGene [sampleSite] 11 ['B'] = [] :=
  invalid_amino_acid_soft_skip sampleGene [sampleSite] 11 ['B'] (by decide) (by decide)

/-! ## C4 — at most the first five accepted designs, in list order -/

/-- C4.  `generateRepairTemplates` returns exactly the first 5 accepted
designs of the candidate list in its given order (ascending proximity when it
comes from `findCas9Sites`): the result is a prefix of the accepted-design
list, never longer than 5, every element is an accepted design of a listed
site, and 8 or more accepted candidates give exactly 5 results. -/
theorem generateRepairTemplates_cap_five (g : List Char) (sites : List Cas9Site)
    (pos : Nat) (aa : List Char) :
    generateRepairTemplates g sites pos aa =
      (sites.filterMap (processSite g (targetNt pos) aa)).take 5 ∧
    (generateRepairTemplates g sites pos aa).length ≤ 5 ∧
    (∃ rest, sites.filterMap (processSite g (targetNt pos) aa) =
      generateRepairTemplates g sites pos aa ++ rest) ∧
    (∀ r ∈ generateRepairTemplates g sites pos aa,
      ∃ s ∈ sites, processSite g (targetNt pos) aa s = some r) ∧
    (8 ≤ (sites.filterMap (processSite g (targetNt pos) aa)).length →
      (generateRepairTemplates g sites pos aa).length = 5) := by
  refine ⟨rfl, ?_, ?_, ?_, ?_⟩
  · exact List.length_take_le 5 _
  · exact ⟨(sites.filterMap (processSite g (targetNt pos) aa)).drop 5,
      (List.take_append_drop 5 _).symm⟩
  · intro r hr
    have : r ∈ sites.filterMap (processSite g (targetNt pos) aa) :=
      List.take_subset 5 _ hr
    rcases List.mem_filterMap.mp this with ⟨s, hs, hps⟩
    exact ⟨s, hs, hps⟩
  · intro h8
    have := List.length_take 5 (sites.filterMap (processSite g (targetNt pos) aa))
    simp only [generateRepairTemplates]
    omega

/-! ## C6 — the PAM_SILENT search keeps the first minimal-change candidate -/

theorem pamUpdate_mkBest (hl : List Char) (b c : Nat × List Char × Nat) :
    pamUpdate hl (mkBest hl b) c = mkBest hl (if c.2.2 < b.2.2 then c else b) := by
  by_cases h : c.2.2 < b.2.2
  · simp [pamUpdate, mkBest, h]
  · simp [pamUpdate, mkBest, h]

theorem foldl_pamUpdate_mkBest (hl : List Char) (l : List (Nat × List Char × Nat))
    (b : Nat × List Char × Nat) :
    l.foldl (pamUpdate hl) (mkBest hl b) = mkBest hl (runBest b l) := by
  induction l generalizing b with
  | nil => rfl
  | cons c l ih =>
    simp only [List.foldl_cons, runBest, pamUpdate_mkBest]
    exact ih _

/-- `mutatePam` in closed form: failure on an empty candidate list, otherwise
the packaged first minimum of the accepted candidates. -/
theorem mutatePam_eq (hl : List Char) (strand : Strand) (ps hs : Nat) :
    mutatePam hl strand ps hs =
      (match pamCandidatesOf hl strand ps hs with
      | [] => ⟨[], false, none, 0⟩
      | c :: l => (mkBest hl (runBest c l)).1) := by
  unfold mutatePam
  cases hc : pamCandidatesOf hl strand ps hs with
  | nil =>
    unfold pamCandidatesOf at hc
    simp [hc]
  | cons c l =>
    unfold pamCandidatesOf at hc
    simp only [hc, List.foldl_cons]
    rw [show pamUpdate hl (⟨[], false, none, 0⟩, none) c = mkBest hl c from rfl]
    rw [foldl_pamUpdate_mkBest]

theorem runBest_min (b : Nat × List Char × Nat) (l : List (Nat × List Char × Nat)) :
    (runBest b l).2.2 ≤ b.2.2 ∧ ∀ c ∈ l, (runBest b l).2.2 ≤ c.2.2 := by
  induction l generalizing b with
  | nil => simp [runBest]
  | cons c l ih =>
    simp only [runBest]
    rcases ih (if c.2.2 < b.2.2 then c else b) with ⟨h1, h2⟩
    constructor
    · refine le_trans h1 ?_
      split <;> omega
    · intro x hx
      rcases List.mem_cons.mp hx with rfl | hx
      · refine le_trans h1 ?_
        split <;> omega
      · exact h2 x hx

theorem runBest_first (b : Nat × List Char × Nat) (l : List (Nat × List Char × Nat)) :
    ∃ pre post, b :: l = pre ++ runBest b l :: post ∧
      ∀ c ∈ pre, (runBest b l).2.2 < c.2.2 := by
  induction l generalizing b with
  | nil => exact ⟨[], [], rfl, by simp⟩
  | cons c l ih =>
    simp only [runBest]
    by_cases hcb : c.2.2 < b.2.2
    · rw [if_pos hcb]
      rcases ih c with ⟨pre, post, hsplit, hlt⟩
      refine ⟨b :: pre, post, ?_, ?_⟩
      · rw [List.cons_append, ← hsplit]
      · intro x hx
        rcases List.mem_cons.mp hx with rfl | hx
        · have := (runBest_min c l).1
          omega
        · exact hlt x hx
    · rw [if_neg hcb]
      rcases ih b with ⟨pre, post, hsplit, hlt⟩
      cases pre with
      | nil =>
        simp only [List.nil_append] at hsplit
        obtain ⟨hb, -⟩ := List.cons.inj hsplit
        refine ⟨[], c :: l, ?_, by simp⟩
        rw [List.nil_append, ← hb]
      | cons p pre' =>
        rw [List.cons_append] at hsplit
        obtain ⟨hb, hl'⟩ := List.cons.inj hsplit
        have hbmem : (runBest b l).2.2 < b.2.2 := by
          have := hlt p (List.mem_cons_self p pre')
          rw [← hb] at this
          exact this
        refine ⟨b :: c :: pre', post, ?_, ?_⟩
        · rw [List.cons_append, List.cons_append, ← hl']
        · intro x hx
          rcases List.mem_cons.mp hx with rfl | hx
          · exact hbmem
          · rcases List.mem_cons.mp hx with rfl | hx
            · omega
            · exact hlt x (List.mem_cons_of_mem p hx)

/-- C6.  `mutatePam` agrees with the accepted-candidate view: candidates are
the synonymous codons (excluding the current codon, which is skipped when
unknown or a stop) of every frame-aligned codon overlapping a critical index
that change at least one critical base.  No candidate means failure
(`mutated = false`); otherwise the returned substitution attains the minimum
total nucleotide change count over all candidates, and is the first candidate
attaining it (every earlier candidate changes strictly more bases). -/
theorem mutatePam_minimal_first (homologyList : List Char) (strand : Strand)
    (pamStart homologyStart : Nat) :
    (pamCandidatesOf homologyList strand pamStart homologyStart = [] →
      mutatePam homologyList strand pamStart homologyStart = ⟨[], false, none, 0⟩) ∧
    (∀ c ∈ pamCandidatesOf homologyList strand pamStart homologyStart,
      (mutatePam homologyList strand pamStart homologyStart).mutated = true ∧
      (mutatePam homologyList strand pamStart homologyStart).mutationCount ≤ c.2.2) ∧
    ((mutatePam homologyList strand pamStart homologyStart).mutated = true →
      (mutatePam homologyList strand pamStart homologyStart).strategy =
        some Strategy.PAM_SILENT ∧
      ∃ pre c post,
        pamCandidatesOf homologyList strand pamStart homologyStart = pre ++ c :: post ∧
        (mutatePam homologyList strand pamStart homologyStart).mutationCount = c.2.2 ∧
        (mutatePam homologyList strand pamStart homologyStart).sequence =
          writeAt homologyList c.1 c.2.1 ∧
        ∀ c' ∈ pre, c.2.2 < c'.2.2) := by
  have he := mutatePam_eq homologyList strand pamStart homologyStart
  cases hc : pamCandidatesOf homologyList strand pamStart homologyStart with
  | nil =>
    rw [hc] at he
    refine ⟨fun _ => he, by simp, ?_⟩
    intro hmut
    rw [he] at hmut
    exact absurd hmut (by simp)
  | cons c l =>
    rw [hc] at he
    refine ⟨by simp, ?_, ?_⟩
    · intro x hx
      rw [he]
      refine ⟨rfl, ?_⟩
      show (runBest c l).2.2 ≤ x.2.2
      rcases List.mem_cons.mp hx with h | hx
      · rw [h]
        exact (runBest_min c l).1
      · exact (runBest_min c l).2 x hx
    · intro _
      rw [he]
      refine ⟨rfl, ?_⟩
      rcases runBest_first c l with ⟨pre, post, hsplit, hlt⟩
      exact ⟨pre, runBest c l, post, hsplit, rfl, rfl, hlt⟩

/-! ## C7 — the SEED_SILENT walk and its two-edit threshold -/

theorem mutateSeed_eq (hl : List Char) (strand : Strand) (ps hs : Nat) :
    mutateSeed hl strand ps hs =
      (if 2 ≤ (seedWalkOf hl strand ps hs).2 then
        ⟨(seedWalkOf hl strand ps hs).1, true, some Strategy.SEED_SILENT,
          (seedWalkOf hl strand ps hs).2⟩
      else ⟨[], false, none, 0⟩) := rfl

theorem mutateSeed_mutated {hl : List Char} {strand : Strand} {ps hs : Nat}
    (h : (mutateSeed hl strand ps hs).mutated = true) :
    2 ≤ (mutateSeed hl strand ps hs).mutationCount ∧
    (mutateSeed hl strand ps hs).strategy = some Strategy.SEED_SILENT ∧
    (mutateSeed hl strand ps hs).sequence = (seedWalkOf hl strand ps hs).1 ∧
    (mutateSeed hl strand ps hs).mutationCount = (seedWalkOf hl strand ps hs).2 := by
  rw [mutateSeed_eq] at h ⊢
  by_cases h2 : 2 ≤ (seedWalkOf hl strand ps hs).2
  · rw [if_pos h2]
    exact ⟨h2, rfl, rfl, rfl⟩
  · rw [if_neg h2] at h
    cases h

theorem seedLoop_stops (si : List Int) (codons extra : List Nat) (lc : List Char) (t : Nat)
    (ht : t < 2) (h2 : 2 ≤ (seedLoop si codons lc t).2) :
    seedLoop si (codons ++ extra) lc t = seedLoop si codons lc t := by
  induction codons generalizing lc t with
  | nil =>
    simp only [seedLoop] at h2
    omega
  | cons cs rest ih =>
    simp only [List.cons_append, seedLoop] at h2 ⊢
    by_cases hstop : 2 ≤ t + (seedStep si lc cs).2
    · rw [if_pos hstop]
      rw [if_pos hstop]
    · rw [if_neg hstop] at h2 ⊢
      rw [if_neg hstop]
      exact ih _ _ (by omega) h2

theorem seedBestSyn_eq_runMaxOpt (si : List Int) (cs : Nat) (cur : List Char) (aa : Char)
    (synonyms : List (List Char)) :
    seedBestSyn si cs cur aa synonyms =
      runMaxOpt (none, 0, 0) (seedSynCandidates si cs cur aa synonyms) := by
  suffices h : ∀ acc, synonyms.foldl
      (fun (acc : Option (List Char) × Nat × Nat) synonym =>
        if synonym = cur then acc
        else if codonToAA synonym ≠ some aa then acc
        else
          if seedChangedCount si cs cur synonym > acc.2.1 then
            (some synonym, seedChangedCount si cs cur synonym, changedCount cur synonym)
          else acc)
      acc = runMaxOpt acc (seedSynCandidates si cs cur aa synonyms) by
    exact h (none, 0, 0)
  induction synonyms with
  | nil => intro acc; rfl
  | cons syn rest ih =>
    intro acc
    simp only [List.foldl_cons, seedSynCandidates, List.filterMap_cons]
    by_cases h1 : syn = cur
    · simp only [if_pos h1]
      exact ih acc
    · simp only [if_neg h1]
      by_cases h2 : codonToAA syn ≠ some aa
      · simp only [if_pos h2]
        exact ih acc
      · simp only [if_neg h2]
        simp only [runMaxOpt, seedAcc]
        by_cases h3 : seedChangedCount si cs cur syn > acc.2.1
        · simp only [if_pos h3]
          exact ih _
        · simp only [if_neg h3]
          exact ih acc

theorem runMaxOpt_seedAcc (b : List Char × Nat × Nat) (l : List (List Char × Nat × Nat)) :
    runMaxOpt (seedAcc b) l = seedAcc (runMaxSyn b l) := by
  induction l generalizing b with
  | nil => rfl
  | cons c l ih =>
    simp only [runMaxOpt, runMaxSyn]
    by_cases h : b.2.1 < c.2.1
    · show runMaxOpt (if b.2.1 < c.2.1 then seedAcc c else seedAcc b) l = _
      rw [if_pos h, if_pos h]
      exact ih c
    · show runMaxOpt (if b.2.1 < c.2.1 then seedAcc c else seedAcc b) l = _
      rw [if_neg h, if_neg h]
      exact ih b

theorem runMaxSyn_max (b : List Char × Nat × Nat) (l : List (List Char × Nat × Nat)) :
    b.2.1 ≤ (runMaxSyn b l).2.1 ∧ ∀ c ∈ l, c.2.1 ≤ (runMaxSyn b l).2.1 := by
  induction l generalizing b with
  | nil => simp [runMaxSyn]
  | cons c l ih =>
    simp only [runMaxSyn]
    rcases ih (if b.2.1 < c.2.1 then c else b) with ⟨h1, h2⟩
    constructor
    · refine le_trans ?_ h1
      split <;> omega
    · intro x hx
      rcases List.mem_cons.mp hx with h | hx
      · rw [h]
        refine le_trans ?_ h1
        split <;> omega
      · exact h2 x hx

theorem runMaxSyn_first (b : List Char × Nat × Nat) (l : List (List Char × Nat × Nat)) :
    ∃ pre post, b :: l = pre ++ runMaxSyn b l :: post ∧
      ∀ c ∈ pre, c.2.1 < (runMaxSyn b l).2.1 := by
  induction l generalizing b with
  | nil => exact ⟨[], [], rfl, by simp⟩
  | cons c l ih =>
    simp only [runMaxSyn]
    by_cases hcb : b.2.1 < c.2.1
    · rw [if_pos hcb]
      rcases ih c with ⟨pre, post, hsplit, hlt⟩
      refine ⟨b :: pre, post, ?_, ?_⟩
      · rw [List.cons_append, ← hsplit]
      · intro x hx
        rcases List.mem_cons.mp hx with h | hx
        · rw [h]
          have := (runMaxSyn_max c l).1
          omega
        · exact hlt x hx
    · rw [if_neg hcb]
      rcases ih b with ⟨pre, post, hsplit, hlt⟩
      cases pre with
      | nil =>
        simp only [List.nil_append] at hsplit
        obtain ⟨hb, -⟩ := List.cons.inj hsplit
        refine ⟨[], c :: l, ?_, by simp⟩
        rw [List.nil_append, ← hb]
      | cons p pre' =>
        rw [List.cons_append] at hsplit
        obtain ⟨hb, hl'⟩ := List.cons.inj hsplit
        have hbgt : b.2.1 < (runMaxSyn b l).2.1 := by
          have := hlt p (List.mem_cons_self p pre')
          rw [← hb] at this
          exact this
        refine ⟨b :: c :: pre', post, ?_, ?_⟩
        · rw [List.cons_append, List.cons_append, ← hl']
        · intro x hx
          rcases List.mem_cons.mp hx with h | hx
          · rw [h]; exact hbgt
          · rcases List.mem_cons.mp hx with h | hx
            · rw [h]; omega
            · exact hlt x (List.mem_cons_of_mem p hx)

theorem runMaxOpt_bot (l : List (List Char × Nat × Nat)) :
    (runMaxOpt (none, 0, 0) l = (none, 0, 0) ∧ ∀ c ∈ l, c.2.1 = 0) ∨
    (∃ pre c post, l = pre ++ c :: post ∧
      runMaxOpt (none, 0, 0) l = seedAcc (runMaxSyn c post) ∧ 0 < c.2.1 ∧
      ∀ c' ∈ pre, c'.2.1 = 0) := by
  induction l with
  | nil => exact Or.inl ⟨rfl, by simp⟩
  | cons c l ih =>
    by_cases h : (0 : Nat) < c.2.1
    · right
      refine ⟨[], c, l, rfl, ?_, h, by simp⟩
      simp only [runMaxOpt]
      show runMaxOpt (if 0 < c.2.1 then seedAcc c else (none, 0, 0)) l = _
      rw [if_pos h]
      exact runMaxOpt_seedAcc c l
    · have h0 : c.2.1 = 0 := by omega
      have hstep : runMaxOpt (none, 0, 0) (c :: l) = runMaxOpt (none, 0, 0) l := by
        simp only [runMaxOpt]
        show runMaxOpt (if 0 < c.2.1 then seedAcc c else (none, 0, 0)) l = _
        rw [if_neg h]
      rcases ih with ⟨h1, h2⟩ | ⟨pre, c', post, hsplit, hrun, hpos, hzero⟩
      · left
        refine ⟨by rw [hstep]; exact h1, ?_⟩
        intro x hx
        rcases List.mem_cons.mp hx with hxc | hx
        · rw [hxc]; exact h0
        · exact h2 x hx
      · right
        refine ⟨c :: pre, c', post, by rw [hsplit, List.cons_append], by rw [hstep]; exact hrun, hpos, ?_⟩
        intro x hx
        rcases List.mem_cons.mp hx with hxc | hx
        · rw [hxc]; exact h0
        · exact hzero x hx

/-- Per-codon choice of the seed walk: either no weighed synonym changes any
seed base (nothing picked), or the first synonym attaining the maximal
in-seed change count is picked. -/
theorem seedBestSyn_first_max (si : List Int) (cs : Nat) (cur : List Char) (aa : Char)
    (synonyms : List (List Char)) :
    (seedBestSyn si cs cur aa synonyms = (none, 0, 0) ∧
      ∀ c ∈ seedSynCandidates si cs cur aa synonyms, c.2.1 = 0) ∨
    (∃ pre c post, seedSynCandidates si cs cur aa synonyms = pre ++ c :: post ∧
      seedBestSyn si cs cur aa synonyms = (some c.1, c.2.1, c.2.2) ∧ 0 < c.2.1 ∧
      (∀ c' ∈ pre, c'.2.1 < c.2.1) ∧
      ∀ c' ∈ seedSynCandidates si cs cur aa synonyms, c'.2.1 ≤ c.2.1) := by
  rw [seedBestSyn_eq_runMaxOpt]
  rcases runMaxOpt_bot (seedSynCandidates si cs cur aa synonyms) with
    ⟨h1, h2⟩ | ⟨pre, c, post, hsplit, hrun, hpos, hzero⟩
  · exact Or.inl ⟨h1, h2⟩
  · right
    rcases runMaxSyn_first c post with ⟨pre1, post1, hsplit1, hlt1⟩
    have hmax := runMaxSyn_max c post
    refine ⟨pre ++ pre1, runMaxSyn c post, post1, ?_, hrun, ?_, ?_, ?_⟩
    · rw [hsplit, hsplit1, List.append_assoc]
    · omega
    · intro x hx
      rcases List.mem_append.mp hx with hx | hx
      · have := hzero x hx
        omega
      · exact hlt1 x hx
    · intro x hx
      rw [hsplit] at hx
      rcases List.mem_append.mp hx with hx | hx
      · have := hzero x hx
        omega
      · rcases List.mem_cons.mp hx with hxc | hx
        · rw [hxc]; exact hmax.1
        · exact hmax.2 x hx

theorem mutatePam_strategy (hl : List Char) (strand : Strand) (ps hs : Nat) :
    (mutatePam hl strand ps hs).strategy = none ∨
    (mutatePam hl strand ps hs).strategy = some Strategy.PAM_SILENT := by
  rw [mutatePam_eq]
  cases pamCandidatesOf hl strand ps hs with
  | nil => exact Or.inl rfl
  | cons c l => exact Or.inr rfl

theorem chooseStrategy_some_inv {o hl : List Char} {strand : Strand} {ps hs : Nat}
    {fh : List Char} {st : Strategy} {cnt : Nat}
    (h : chooseStrategy o hl strand ps hs = some (fh, st, cnt)) :
    (st = Strategy.PAM_DISRUPTED_BY_TARGET ∧ fh = hl ∧ cnt = 0) ∨
    (st = Strategy.PAM_SILENT ∧ (mutatePam hl strand ps hs).mutated = true ∧
      fh = (mutatePam hl strand ps hs).sequence ∧
      cnt = (mutatePam hl strand ps hs).mutationCount) ∨
    (st = Strategy.SEED_SILENT ∧ (mutateSeed hl strand ps hs).mutated = true ∧
      fh = (mutateSeed hl strand ps hs).sequence ∧
      cnt = (mutateSeed hl strand ps hs).mutationCount) := by
  unfold chooseStrategy at h
  split at h
  · simp only [Option.some.injEq, Prod.mk.injEq] at h
    exact Or.inl ⟨h.2.1.symm, h.1.symm, h.2.2.symm⟩
  · split at h
    next hmut hstr =>
      simp only [Option.some.injEq, Prod.mk.injEq] at h
      rcases mutatePam_strategy hl strand ps hs with hn | hp
      · rw [hn] at hstr
        cases hstr
      · rw [hp] at hstr
        right; left
        refine ⟨?_, hmut, h.1.symm, h.2.2.symm⟩
        rw [← h.2.1, Option.some.inj hstr]
    next =>
      split at h
      next hmut hstr =>
        simp only [Option.some.injEq, Prod.mk.injEq] at h
        right; right
        refine ⟨?_, hmut, h.1.symm, h.2.2.symm⟩
        have hst := (mutateSeed_mutated hmut).2.1
        rw [hst] at hstr
        rw [← h.2.1, Option.some.inj hstr]
      next => cases h

theorem mutatePam_mutated {hl : List Char} {strand : Strand} {ps hs : Nat}
    (h : (mutatePam hl strand ps hs).mutated = true) :
    (mutatePam hl strand ps hs).strategy = some Strategy.PAM_SILENT := by
  rcases mutatePam_strategy hl strand ps hs with hn | hp
  · rw [mutatePam_eq] at h hn
    cases hc : pamCandidatesOf hl strand ps hs with
    | nil => rw [hc] at h; cases h
    | cons c l => rw [hc] at hn; cases hn
  · exact hp

/-- C7.  `mutateSeed` walks the seed-overlapping codons in ascending order,
per codon applying the first synonym of maximal in-seed change count when one
changes at least one seed base; it accumulates the total nucleotide edit
count, stops as soon as it reaches 2, and fails when the codons run out
first; consequently every returned design of strategy `SEED_SILENT` has
`silentMutationCount ≥ 2`. -/
theorem mutateSeed_two_edit_threshold (homologyList : List Char) (strand : Strand)
    (pamStart homologyStart : Nat) :
    (2 ≤ (seedWalkOf homologyList strand pamStart homologyStart).2 →
      mutateSeed homologyList strand pamStart homologyStart =
        ⟨(seedWalkOf homologyList strand pamStart homologyStart).1, true,
          some Strategy.SEED_SILENT,
          (seedWalkOf homologyList strand pamStart homologyStart).2⟩) ∧
    ((seedWalkOf homologyList strand pamStart homologyStart).2 < 2 →
      mutateSeed homologyList strand pamStart homologyStart = ⟨[], false, none, 0⟩) ∧
    ((mutateSeed homologyList strand pamStart homologyStart).mutated = true →
      2 ≤ (mutateSeed homologyList strand pamStart homologyStart).mutationCount ∧
      (mutateSeed homologyList strand pamStart homologyStart).strategy =
        some Strategy.SEED_SILENT) ∧
    (∀ (si : List Int) (codons extra : List Nat) (lc : List Char) (t : Nat),
      t < 2 → 2 ≤ (seedLoop si codons lc t).2 →
      seedLoop si (codons ++ extra) lc t = seedLoop si codons lc t) ∧
    (∀ (si : List Int) (cs : Nat) (cur : List Char) (aa : Char)
        (synonyms : List (List Char)),
      (seedBestSyn si cs cur aa synonyms = (none, 0, 0) ∧
        ∀ c ∈ seedSynCandidates si cs cur aa synonyms, c.2.1 = 0) ∨
      (∃ pre c post, seedSynCandidates si cs cur aa synonyms = pre ++ c :: post ∧
        seedBestSyn si cs cur aa synonyms = (some c.1, c.2.1, c.2.2) ∧ 0 < c.2.1 ∧
        (∀ c' ∈ pre, c'.2.1 < c.2.1) ∧
        ∀ c' ∈ seedSynCandidates si cs cur aa synonyms, c'.2.1 ≤ c.2.1)) ∧
    (∀ (g : List Char) (sites : List Cas9Site) (pos : Nat) (aa : List Char)
        (r : RepairResult), r ∈ generateRepairTemplates g sites pos aa →
      r.strategy = Strategy.SEED_SILENT → 2 ≤ r.silentMutationCount) := by
  refine ⟨?_, ?_, ?_, ?_, ?_, ?_⟩
  · intro h2
    rw [mutateSeed_eq, if_pos h2]
  · intro h2
    rw [mutateSeed_eq, if_neg (by omega)]
  · intro hmut
    exact ⟨(mutateSeed_mutated hmut).1, (mutateSeed_mutated hmut).2.1⟩
  · intro si codons extra lc t ht h2
    exact seedLoop_stops si codons extra lc t ht h2
  · intro si cs cur aa synonyms
    exact seedBestSyn_first_max si cs cur aa synonyms
  · intro g sites pos aa r hr hst
    rcases mem_generateRepairTemplates hr with ⟨site, _, hps⟩
    rcases processSite_some hps with ⟨hl2, fh, st, cnt, _, hc, hre, _⟩
    rw [hre, mk_silentMutationCount]
    rw [hre, mk_strategy] at hst
    rcases chooseStrategy_some_inv hc with ⟨h1, _, _⟩ | ⟨h1, _, _, _⟩ | ⟨h1, hmut, _, hcnt⟩
    · rw [hst] at h1
      exact absurd h1 (by decide)
    · rw [hst] at h1
      exact absurd h1 (by decide)
    · rw [hcnt]
      exact (mutateSeed_mutated hmut).1


/-! ## C5 — fixed strategy precedence -/

/-- C5.  Fixed per-site strategy precedence: the critical bases are forward
`pamStart+21`, `pamStart+22` and reverse `pamStart+0`, `pamStart+1` relative
to the arm; a desired mutation that already changed one short-circuits to
`PAM_DISRUPTED_BY_TARGET` (unchanged arm, count 0, no silent search);
otherwise `PAM_SILENT` is attempted, then `SEED_SILENT`; when all fail the
site is discarded and contributes no result; a packaged result's strategy and
count are exactly the chosen ones. -/
theorem strategy_precedence_fixed (originalRegion homologyList : List Char)
    (strand : Strand) (pamStart homologyStart : Nat) :
    (criticalIndicesFor Strand.forward ((pamStart : Int) - (homologyStart : Int)) =
      [(pamStart : Int) - (homologyStart : Int) + 21,
       (pamStart : Int) - (homologyStart : Int) + 22]) ∧
    (criticalIndicesFor Strand.reverse ((pamStart : Int) - (homologyStart : Int)) =
      [(pamStart : Int) - (homologyStart : Int),
       (pamStart : Int) - (homologyStart : Int) + 1]) ∧
    (pamAlreadyDisruptedFor originalRegion homologyList
        (criticalIndicesFor strand ((pamStart : Int) - (homologyStart : Int))) = true →
      chooseStrategy originalRegion homologyList strand pamStart homologyStart =
        some (homologyList, Strategy.PAM_DISRUPTED_BY_TARGET, 0)) ∧
    (pamAlreadyDisruptedFor originalRegion homologyList
        (criticalIndicesFor strand ((pamStart : Int) - (homologyStart : Int))) = false →
      (mutatePam homologyList strand pamStart homologyStart).mutated = true →
      chooseStrategy originalRegion homologyList strand pamStart homologyStart =
        some ((mutatePam homologyList strand pamStart homologyStart).sequence,
          Strategy.PAM_SILENT,
          (mutatePam homologyList strand pamStart homologyStart).mutationCount)) ∧
    (pamAlreadyDisruptedFor originalRegion homologyList
        (criticalIndicesFor strand ((pamStart : Int) - (homologyStart : Int))) = false →
      (mutatePam homologyList strand pamStart homologyStart).mutated = false →
      (mutateSeed homologyList strand pamStart homologyStart).mutated = true →
      chooseStrategy originalRegion homologyList strand pamStart homologyStart =
        some ((mutateSeed homologyList strand pamStart homologyStart).sequence,
          Strategy.SEED_SILENT,
          (mutateSeed homologyList strand pamStart homologyStart).mutationCount)) ∧
    (pamAlreadyDisruptedFor originalRegion homologyList
        (criticalIndicesFor strand ((pamStart : Int) - (homologyStart : Int))) = false →
      (mutatePam homologyList strand pamStart homologyStart).mutated = false →
      (mutateSeed homologyList strand pamStart homologyStart).mutated = false →
      chooseStrategy originalRegion homologyList strand pamStart homologyStart = none) ∧
    (∀ (g : List Char) (mp : Nat) (aa : List Char) (site : Cas9Site) (hl2 : List Char),
      applyDesiredMutation
          (slice g (homologyStartFor mp site) (homologyEndFor g mp site))
          (mp - homologyStartFor mp site) aa = some hl2 →
      chooseStrategy (slice g (homologyStartFor mp site) (homologyEndFor g mp site))
          hl2 site.strand site.position (homologyStartFor mp site) = none →
      processSite g mp aa site = none) ∧
    (∀ (g : List Char) (mp : Nat) (aa : List Char) (site : Cas9Site) (r : RepairResult),
      processSite g mp aa site = some r →
      ∃ hl2 fh,
        applyDesiredMutation
            (slice g (homologyStartFor mp site) (homologyEndFor g mp site))
            (mp - homologyStartFor mp site) aa = some hl2 ∧
        chooseStrategy (slice g (homologyStartFor mp site) (homologyEndFor g mp site))
            hl2 site.strand site.position (homologyStartFor mp site) =
          some (fh, r.strategy, r.silentMutationCount)) := by
  refine ⟨rfl, rfl, ?_, ?_, ?_, ?_, ?_, ?_⟩
  · intro hpd
    unfold chooseStrategy
    rw [if_pos hpd]
  · intro hpd hmut
    unfold chooseStrategy
    rw [if_neg (by simp [hpd]), hmut, mutatePam_mutated hmut]
  · intro hpd hpam hseed
    unfold chooseStrategy
    rw [if_neg (by simp [hpd]), hpam, hseed, (mutateSeed_mutated hseed).2.1]
  · intro hpd hpam hseed
    unfold chooseStrategy
    rw [if_neg (by simp [hpd]), hpam, hseed]
  · intro g mp aa site hl2 happ hch
    cases hps : processSite g mp aa site with
    | none => rfl
    | some r =>
      exfalso
      rcases processSite_some hps with ⟨hl3, fh, st, cnt, ha, hc, -, -⟩
      rw [happ] at ha
      rw [Option.some.inj ha] at hch
      rw [hch] at hc
      cases hc
  · intro g mp aa site r hps
    rcases processSite_some hps with ⟨hl2, fh, st, cnt, ha, hc, hre, _⟩
    refine ⟨hl2, fh, ha, ?_⟩
    rw [hre, mk_strategy, mk_silentMutationCount]
    exact hc

/-! ## C10 — cloning oligo structure -/

theorem nuc_toUpper {c : Char} (h : c = 'A' ∨ c = 'C' ∨ c = 'G' ∨ c = 'T') :
    Char.toUpper c = c := by
  rcases h with rfl | rfl | rfl | rfl <;> decide

theorem nuc_complement {c : Char} (h : c = 'A' ∨ c = 'C' ∨ c = 'G' ∨ c = 'T') :
    complementChar c = 'A' ∨ complementChar c = 'C' ∨ complementChar c = 'G' ∨
      complementChar c = 'T' := by
  rcases h with rfl | rfl | rfl | rfl <;> decide

theorem nuc_reverseComplement {l : List Char}
    (h : ∀ c ∈ l, c = 'A' ∨ c = 'C' ∨ c = 'G' ∨ c = 'T') :
    ∀ c ∈ reverseComplement l, c = 'A' ∨ c = 'C' ∨ c = 'G' ∨ c = 'T' := by
  intro c hc
  rcases List.mem_map.mp hc with ⟨d, hd, rfl⟩
  exact nuc_complement (h d (List.mem_reverse.mp hd))

theorem map_toUpper_nuc {l : List Char}
    (h : ∀ c ∈ l, c = 'A' ∨ c = 'C' ∨ c = 'G' ∨ c = 'T') :
    l.map Char.toUpper = l := by
  induction l with
  | nil => rfl
  | cons c l ih =>
    simp only [List.map_cons]
    rw [nuc_toUpper (h c (List.mem_cons_self c l)),
      ih (fun x hx => h x (List.mem_cons_of_mem c hx))]

theorem nuc_guideSeq20 {site : Cas9Site}
    (h : ∀ c ∈ site.sequence, c = 'A' ∨ c = 'C' ∨ c = 'G' ∨ c = 'T') :
    ∀ c ∈ guideSeq20For site, c = 'A' ∨ c = 'C' ∨ c = 'G' ∨ c = 'T' := by
  have hsg : ∀ c ∈ sgRNAFor site, c = 'A' ∨ c = 'C' ∨ c = 'G' ∨ c = 'T' := by
    unfold sgRNAFor
    cases site.strand
    · exact h
    · exact nuc_reverseComplement h
  intro c hc
  rcases List.mem_map.mp hc with ⟨d, hd, rfl⟩
  have hdn := hsg d (List.mem_of_mem_take hd)
  rw [nuc_toUpper hdn]
  exact hdn

/-- C10.  The cloning oligos: oligo A is `gatc`, the uppercase 20-nt spacer
of the forward-oriented guide (the raw match reverse-complemented first for a
reverse-strand site), then `gttttagagctag` — 37 nt; oligo B is
`ctagctctaaaac` followed by the reverse complement of that same spacer —
33 nt; so B's variable region is always the reverse complement of A's. -/
theorem cloning_oligos_shape (g : List Char) (sites : List Cas9Site) (pos : Nat)
    (aa : List Char) (r : RepairResult)
    (hr : r ∈ generateRepairTemplates g sites pos aa)
    (hlen : r.site.sequence.length = 23)
    (halpha : ∀ c ∈ r.site.sequence, c = 'A' ∨ c = 'C' ∨ c = 'G' ∨ c = 'T') :
    r.cloningOligoA =
      "gatc".toList ++ guideSeq20For r.site ++ "gttttagagctag".toList ∧
    r.cloningOligoB =
      "ctagctctaaaac".toList ++ reverseComplement (guideSeq20For r.site) ∧
    (guideSeq20For r.site).length = 20 ∧
    r.cloningOligoA.length = 37 ∧
    r.cloningOligoB.length = 33 := by
  rcases mem_generateRepairTemplates hr with ⟨site, _, hps⟩
  rcases processSite_some hps with ⟨hl2, fh, st, cnt, -, -, hre, -⟩
  have hsite : r.site = site := by rw [hre, mk_site]
  rw [hsite] at hlen halpha ⊢
  have hspacer : (guideSeq20For site).length = 20 := by
    have hsg : (sgRNAFor site).length = 23 := by
      unfold sgRNAFor
      cases site.strand
      · exact hlen
      · rw [reverseComplement_length]; exact hlen
    unfold guideSeq20For
    rw [List.length_map, List.length_take, hsg]
    omega
  have hB : (reverseComplement (guideSeq20For site)).map Char.toUpper =
      reverseComplement (guideSeq20For site) :=
    map_toUpper_nuc (nuc_reverseComplement (nuc_guideSeq20 halpha))
  refine ⟨?_, ?_, hspacer, ?_, ?_⟩
  · rw [hre, mk_cloningOligoA]
  · rw [hre, mk_cloningOligoB, hB]
  · rw [hre, mk_cloningOligoA]
    simp [hspacer]
  · rw [hre, mk_cloningOligoB, hB]
    simp [reverseComplement_length, hspacer]

/-- C10 witness: the worked example's oligos at concrete input. -/
theorem cloning_oligos_shape_witness :
    sampleResult.cloningOligoA =
      "gatc".toList ++ guideSeq20For sampleResult.site ++ "gttttagagctag".toList ∧
    sampleResult.cloningOligoB =
      "ctagctctaaaac".toList ++ reverseComplement (guideSeq20For sampleResult.site) ∧
    (guideSeq20For sampleResult.site).length = 20 ∧
    sampleResult.cloningOligoA.length = 37 ∧
    sampleResult.cloningOligoB.length = 33 :=
  cloning_oligos_shape sampleGene [sampleSite] 11 ['L'] sampleResult sampleResult_mem
    (by decide) (by decide)

end Crispr
